import Mathlib

/-!
Verification of the token-price-service repository core: the fixed-point
`TokenPrice` value object, the `Token` aggregate, the Kafka producer and
event bus, the retry utility, the cursor-based `processAll` reader and the
`UpdateTokenPricesHandler` pipeline, shallowly embedded from the
TypeScript sources.
-/

namespace TokenPriceService

/-! ## Decimal strings

`src/shared/domain/value-objects/token-price.ts` manipulates decimal
strings by splitting them at the decimal point into an integer-digit part
and a fraction-digit part.  The embedding represents such a string
directly by the two digit lists (most significant digit first); an empty
`fracDigits` means the string has no decimal point, matching
`value.split(".")` yielding a single component. -/
structure DecimalString where
  intDigits : List Nat
  fracDigits : List Nat
  deriving DecidableEq, Repr

/-- Numeric value of a digit string, most significant digit first; models
JavaScript `BigInt(digits)` (the source's stripping of leading zeros
before `BigInt` does not change this value). -/
def digitsToNat (ds : List Nat) : Nat :=
  ds.foldl (fun a d => 10 * a + d) 0

/-- Models `fracPartRaw.padEnd(8, "0").slice(0, 8)` from
`parseDecimalStringToAmount`: right-pad with zero digits to length 8,
then truncate to 8. -/
def padTo8 (ds : List Nat) : List Nat :=
  (ds ++ List.replicate 8 0).take 8

/-- Models `fracPart.replace(/0+$/, "")` from
`formatAmountToDecimalString`: remove trailing zero digits. -/
def dropTrailingZeros (ds : List Nat) : List Nat :=
  (ds.reverse.dropWhile (· = 0)).reverse

/-- Digit list of the decimal rendering of a natural number, models
JavaScript `n.toString()` for a nonnegative bigint. -/
def natDigits (n : Nat) : List Nat :=
  if n = 0 then [0] else (Nat.digits 10 n).reverse

/-- Models `(abs % SCALE_FACTOR).toString().padStart(8, "0")` from
`formatAmountToDecimalString`: decimal digits of `r`, left-padded with
zeros to length 8. -/
def padDigits8 (r : Nat) : List Nat :=
  List.replicate (8 - (natDigits r).length) 0 ++ natDigits r

/-- Fixed scale `10^8` (`SCALE_FACTOR = 10n ** 8n` in the source). -/
def SCALE_FACTOR : Int := (10 : Int) ^ 8

/-- Scaled integer denoted by a decimal string at scale 8: the exact
value of the string times `10^8`, provided the string has at most 8
fraction digits.  This is also exactly what `parseDecimalStringToAmount`
computes. -/
def scaled8 (d : DecimalString) : Nat :=
  digitsToNat (d.intDigits ++ padTo8 d.fracDigits)

/-- Models `parseDecimalStringToAmount(value)`: concatenate the integer
digits with the fraction digits padded/truncated to 8 and read the result
as a bigint. -/
def parseDecimalStringToAmount (d : DecimalString) : Int :=
  (scaled8 d : Int)

/-- Structural side of the Zod regex `^\d+(?:\.\d{1,8})?$` of
`TokenPriceStringSchema`: a nonempty all-digit integer part, and a
fraction part of at most 8 digits (an empty fraction part means the
string has no decimal point, which the regex also accepts). -/
def isDecimalFormat (d : DecimalString) : Bool :=
  !d.intDigits.isEmpty && d.intDigits.all (· < 10) &&
    d.fracDigits.all (· < 10) && d.fracDigits.length ≤ 8

/-- Models `TokenPriceStringSchema.parse`: the regex check followed by the
`parseFloat(s) > 0` refinement.  For strings matching the regex the
refinement holds exactly when some digit is nonzero, i.e. when the scaled
value is positive (`parseFloat` of a positive decimal with at most 8
fraction digits is a positive double, the smallest case being `1e-8`). -/
def TokenPriceStringSchema.parseEx (d : DecimalString) : Except String DecimalString :=
  if isDecimalFormat d then
    if 0 < scaled8 d then .ok d
    else .error "Token price must be positive"
  else .error "Invalid decimal string (max 8 fraction digits)"

/-- Output of `formatAmountToDecimalString`: a sign flag and the digit
parts of the rendered string. -/
structure FormattedDecimal where
  negative : Bool
  digits : DecimalString
  deriving DecidableEq, Repr

/-- Models `formatAmountToDecimalString(amount)`: split the absolute
value into integer part and 8-digit fraction block, strip the fraction's
trailing zeros, and carry the sign. -/
def formatAmountToDecimalString (amount : Int) : FormattedDecimal :=
  { negative := amount < 0
    digits :=
      { intDigits := natDigits (amount.natAbs / 10 ^ 8)
        fracDigits := dropTrailingZeros (padDigits8 (amount.natAbs % 10 ^ 8)) } }

/-! ## JavaScript numbers

`parseNumberToAmount` works on `n.toString()`, the shortest decimal
rendering of the (finite) double `n`.  JavaScript renders a positive
double positionally (`"123.45"`) when `1e-6 ≤ n < 1e21` and scientifically
(`"1.2e-7"`) otherwise.  The embedding records which of the two shapes
the rendering has; a scientific rendering is modelled only for the small
range (`0 < n < 1e-6`, negative exponent), which is the only scientific
case the claims touch. -/
inductive NumRendering where
  /-- Positional rendering: digit parts of `n.toString()`. -/
  | positional (d : DecimalString)
  /-- Scientific rendering `<mantissa>e-<exp>` of a value below `1e-6`;
  `mantissa` holds the digit parts of the mantissa. -/
  | scientific (mantissa : DecimalString) (exp : Nat)
  deriving DecidableEq, Repr

/-- A finite JavaScript number, modelled by its sign and the shape of its
shortest decimal rendering. -/
structure JSNumber where
  negative : Bool
  rendering : NumRendering
  deriving DecidableEq, Repr

/-- Whether the number's value is zero (all rendered digits zero). -/
def JSNumber.isZeroValue (n : JSNumber) : Bool :=
  match n.rendering with
  | .positional d => decide (digitsToNat (d.intDigits ++ d.fracDigits) = 0)
  | .scientific m _ => decide (digitsToNat (m.intDigits ++ m.fracDigits) = 0)

/-- Number.MAX_SAFE_INTEGER = 2^53 - 1. -/
def MAX_SAFE_INTEGER : Nat := 2 ^ 53 - 1

/-- Models the comparison `n > Number.MAX_SAFE_INTEGER` on the number's
exact value.  A scientifically rendered value in this model is below
`1e-6`, hence never exceeds the bound. -/
def JSNumber.exceedsMaxSafeInteger (n : JSNumber) : Bool :=
  match n.rendering with
  | .positional d => decide (MAX_SAFE_INTEGER * 10 ^ 8 < scaled8 d) && !n.negative
  | .scientific _ _ => false

/-- Models `parseNumberToAmount(n)` from `token-price.ts`: reject
non-positive values, values above `Number.MAX_SAFE_INTEGER`, and more
than 8 fraction digits, then re-validate the rendered string with
`TokenPriceStringSchema` and parse it.  For a scientific rendering the
string split at `"."` leaves an `e`/exponent inside a digit component, so
the Zod regex `^\d+(?:\.\d{1,8})?$` rejects it (e.g. `create(1e-8)`
throws the schema error). -/
def parseNumberToAmount (n : JSNumber) : Except String Int :=
  if n.negative || n.isZeroValue then .error "Token price must be positive"
  else if n.exceedsMaxSafeInteger then .error "Token price exceeds safe integer limit"
  else
    match n.rendering with
    | .positional d =>
        if 8 < d.fracDigits.length then
          .error "Too many decimal places for token price precision"
        else do
          let v ← TokenPriceStringSchema.parseEx d
          pure (parseDecimalStringToAmount v)
    | .scientific _ _ => .error "Invalid decimal string (max 8 fraction digits)"

/-- Argument of `TokenPrice.create(value: string | number)`. -/
inductive PriceInput where
  | str (d : DecimalString)
  | num (n : JSNumber)
  deriving DecidableEq, Repr

/-- The `TokenPrice` value object: an immutable scaled bigint amount. -/
structure TokenPrice where
  amount : Int
  deriving DecidableEq, Repr

namespace TokenPrice

/-- Models `TokenPrice.create`: the number branch goes through
`parseNumberToAmount`, the string branch through schema validation and
`parseDecimalStringToAmount`. -/
def create (value : PriceInput) : Except String TokenPrice :=
  match value with
  | .num n => do
      let amount ← parseNumberToAmount n
      pure ⟨amount⟩
  | .str d => do
      let validated ← TokenPriceStringSchema.parseEx d
      pure ⟨parseDecimalStringToAmount validated⟩

/-- Models `TokenPrice.fromAmountString`. -/
def fromAmountString (amount : Int) : Except String TokenPrice :=
  if amount ≤ 0 then .error "Token price must be positive" else .ok ⟨amount⟩

/-- Models `toString()`. -/
def toDecimalString (p : TokenPrice) : FormattedDecimal :=
  formatAmountToDecimalString p.amount

/-- Models `add`. -/
def add (p other : TokenPrice) : Except String TokenPrice :=
  let result := p.amount + other.amount
  if result ≤ 0 then .error "Token price must be positive" else .ok ⟨result⟩

/-- Models `subtract`. -/
def subtract (p other : TokenPrice) : Except String TokenPrice :=
  let result := p.amount - other.amount
  if result ≤ 0 then .error "Token price must be positive" else .ok ⟨result⟩

/-- The scaled product with round-half-up computed inside `multiply`:
`amount * factorScaled / SCALE_FACTOR`, adding 1 when the remainder is at
least half the scale factor. -/
def multiplyRounded (p : TokenPrice) (factor : DecimalString) : Int :=
  let prod := p.amount * (scaled8 factor : Int)
  let q := prod / SCALE_FACTOR
  let r := prod % SCALE_FACTOR
  if SCALE_FACTOR / 2 ≤ r then q + 1 else q

/-- Models `multiply(factor)` for a factor whose rendering is positional
(the branch the source exercises; a scientific factor rendering would
make `BigInt(fi + ff)` throw a `SyntaxError`).  The factor's fraction
digits are right-padded/truncated to 8 (`padEnd(8,"0").slice(0,8)`), the
scaled integers are multiplied, and the product is divided by the scale
factor with round-half-up. -/
def multiply (p : TokenPrice) (factorNegative : Bool) (factor : DecimalString) :
    Except String TokenPrice :=
  if factorNegative || digitsToNat (factor.intDigits ++ factor.fracDigits) = 0 then
    .error "Token price must be positive"
  else
    let rounded := multiplyRounded p factor
    if rounded ≤ 0 then .error "Token price must be positive" else .ok ⟨rounded⟩

/-- Models `equals`. -/
def equalsPrice (p other : TokenPrice) : Bool :=
  p.amount = other.amount

end TokenPrice

/-! ## Domain events and the Token aggregate

From `src/shared/kernel/domain-event-bus.port.ts` (the `DomainEvent`
interface) and the `Token` entity.  The only event producer in the
repository is `Token.updatePrice`, so the payload is modelled by that
event's concrete shape.  Timestamps (`Date`) are modelled as naturals.
`payload.oldPrice` is `currentPrice.getValue()`, i.e. the numeric value
`amount / 10^8`; the model carries the exact scaled amount.
`payload.newPrice` is the raw number argument of `updatePrice`. -/
structure PriceUpdatedPayload where
  tokenId : String
  symbol : Option String
  oldPriceAmount : Int
  newPrice : JSNumber
  deriving DecidableEq, Repr

/-- The `DomainEvent` interface: name, payload, occurredAt. -/
structure DomainEvent where
  name : String
  payload : PriceUpdatedPayload
  occurredAt : Nat
  deriving DecidableEq, Repr

/-- The `Token` aggregate root (entities/token.ts).  The `chain` and
`logo` reference entities are read-only display data never touched by the
pipeline and are omitted; `contractAddress` bytes are a list of naturals.
`events` is the transient pending-event queue (`private events = []`). -/
structure Token where
  id : String
  contractAddress : List Nat
  symbol : Option String
  displayName : Option String
  decimalPlaces : Nat
  isNativeToken : Bool
  chainId : String
  isSystemProtected : Bool
  lastModifiedBy : Option String
  displayPriority : Nat
  currentPrice : TokenPrice
  lastPriceUpdateDateTime : Nat
  events : List DomainEvent
  deriving DecidableEq, Repr

namespace Token

/-- Models `Token.restore(params)`: the constructor runs
`TokenPrice.create(params.currentPrice)` (a number), which can throw, and
starts with an empty event queue. -/
def restore (id : String) (contractAddress : List Nat) (symbol : Option String)
    (displayName : Option String) (decimalPlaces : Nat) (isNativeToken : Bool)
    (chainId : String) (isSystemProtected : Bool) (lastModifiedBy : Option String)
    (displayPriority : Nat) (currentPrice : JSNumber) (lastPriceUpdateDateTime : Nat) :
    Except String Token := do
  let price ← TokenPrice.create (.num currentPrice)
  pure
    { id, contractAddress, symbol, displayName, decimalPlaces, isNativeToken,
      chainId, isSystemProtected, lastModifiedBy, displayPriority,
      currentPrice := price, lastPriceUpdateDateTime, events := [] }

/-- Models `updatePrice(newPrice, occurredAt)`: validate the new price
through `TokenPrice.create` (a thrown validation error propagates to the
caller), return unchanged if it `equals` the current price, otherwise set
the price and timestamp and push one `PriceUpdated` event. -/
def updatePrice (t : Token) (newPrice : JSNumber) (occurredAt : Nat) :
    Except String Token := do
  let newTokenPrice ← TokenPrice.create (.num newPrice)
  if newTokenPrice.equalsPrice t.currentPrice then
    pure t
  else
    pure
      { t with
        currentPrice := newTokenPrice
        lastPriceUpdateDateTime := occurredAt
        events := t.events ++
          [{ name := "PriceUpdated"
             payload :=
               { tokenId := t.id, symbol := t.symbol
                 oldPriceAmount := t.currentPrice.amount, newPrice := newPrice }
             occurredAt := occurredAt }] }

/-- Models `pullEvents()`: return the pending events and clear the
queue. -/
def pullEvents (t : Token) : List DomainEvent × Token :=
  (t.events, { t with events := [] })

end Token

/-! ## Retry utility

From `src/shared/utils/retry.ts`: `retry(fn, opts)` attempts `fn` once
and then up to `opts.retries` more times, rejecting with the final error
once attempts are exhausted.  Each attempt's outcome is modelled by a
function from the attempt index, so one deterministic call site is
`fun _ => e`. -/
def retryGo {E A : Type} (attempt : Nat → Except E A) : Nat → Nat → Except E A
  | k, 0 => attempt k
  | k, n + 1 =>
    match attempt k with
    | .ok a => .ok a
    | .error _ => retryGo attempt (k + 1) n

/-- Models `retry(fn, { retries, ... })`; backoff delays do not affect
the value-level outcome and are not modelled. -/
def retry {E A : Type} (attempt : Nat → Except E A) (retries : Nat) : Except E A :=
  retryGo attempt 0 retries

/-! ## Kafka producer and event bus

From `src/kafka/kafka-producer.service.ts` and the `KafkaEventBus`
adapter.  The producer's transport (`producer.send`) is a parameter; its
`enabled` flag is false when the broker connection failed at startup or
in the test environment (`onModuleInit`). -/
structure KafkaMessage where
  key : String
  tokenId : String
  symbol : String
  oldPriceAmount : Int
  newPrice : JSNumber
  timestamp : Nat
  deriving DecidableEq, Repr

/-- The message validity filter in `sendPriceUpdateBatch`:
`msg.tokenId && msg.symbol && msg.oldPrice >= 0 && msg.newPrice >= 0`
(truthiness of the strings = non-emptiness; prices nonnegative). -/
def kafkaMessageValid (m : KafkaMessage) : Bool :=
  !m.tokenId.isEmpty && !m.symbol.isEmpty && 0 ≤ m.oldPriceAmount && !m.newPrice.negative

/-- Observable outcome of one `sendPriceUpdateBatch` call. -/
inductive SendOutcome where
  /-- `messages.length === 0`: returned before the try block. -/
  | skippedEmpty
  /-- `!this.enabled`: returned inside the try block without sending. -/
  | skippedDisabled
  /-- every message was filtered out as invalid. -/
  | skippedAllInvalid
  /-- `producer.send` was invoked with `n` messages and resolved. -/
  | sent (n : Nat)
  /-- `producer.send` rejected; the error was caught and logged. -/
  | loggedError (e : String)
  deriving DecidableEq, Repr

/-- Models `KafkaProducerService.sendPriceUpdateBatch`.  The whole body
after the empty-input guard sits in a `try` whose `catch` only logs, so
the returned promise is `.ok` for every input; `transport` models
`producer.send`. -/
def sendPriceUpdateBatch (enabled : Bool)
    (transport : List KafkaMessage → Except String Unit)
    (messages : List KafkaMessage) : Except String SendOutcome :=
  if messages.isEmpty then .ok .skippedEmpty
  else
    let tryBody : Except String SendOutcome :=
      if !enabled then .ok .skippedDisabled
      else
        let validMessages := messages.filter kafkaMessageValid
        if validMessages.isEmpty then .ok .skippedAllInvalid
        else do
          let _ ← transport validMessages
          pure (.sent validMessages.length)
    match tryBody with
    | .ok o => .ok o
    | .error e => .ok (.loggedError e)

/-- Mapping of a `PriceUpdated` domain event to a Kafka message in
`KafkaEventBus.publish` (`symbol ?? "UNKNOWN"`, key = tokenId). -/
def toKafkaMessage (e : DomainEvent) : KafkaMessage :=
  { key := e.payload.tokenId
    tokenId := e.payload.tokenId
    symbol := e.payload.symbol.getD "UNKNOWN"
    oldPriceAmount := e.payload.oldPriceAmount
    newPrice := e.payload.newPrice
    timestamp := e.occurredAt }

/-- Models `KafkaEventBus.publish(events)` (the batch adapter): filter to
`PriceUpdated` events, map to messages, return early when there are none,
otherwise call `sendPriceUpdateBatch` wrapped in
`retry({retries: 3, initialDelayMs: 200, factor: 2})`.  `transport k` is
the broker transport behaviour on attempt `k`. -/
def KafkaEventBus.publish (enabled : Bool)
    (transport : Nat → List KafkaMessage → Except String Unit)
    (events : List DomainEvent) : Except String Unit :=
  let priceUpdateMessages :=
    (events.filter (fun e => e.name = "PriceUpdated")).map toKafkaMessage
  if priceUpdateMessages.isEmpty then .ok ()
  else
    retry (fun k => do
      let _ ← sendPriceUpdateBatch enabled (transport k) priceUpdateMessages
      pure ()) 3

/-! ## The update pipeline

From `UpdateTokenPricesHandler.execute`.  The oracle
(`externalPriceService.getPriceForToken`), the event bus (`bus.publish`,
already retry-wrapped inside `KafkaEventBus`), and the store
(`repo.saveBatch`, retry-wrapped inside `PrismaTokenRepository`) are
parameters; each `Except` outcome models the settled state of the
corresponding promise.  The trace records, in order, which batch-level
I/O calls the handler actually issued. -/
inductive Effect where
  /-- `this.bus.publish(allEvents)` was invoked. -/
  | publishCall (events : List DomainEvent)
  /-- `this.repo.saveBatch(tokensToSave)` was invoked. -/
  | saveCall (tokens : List Token)
  deriving DecidableEq, Repr

/-- Counters accumulated by `execute` (they are logged and recorded as
metrics; `execute` itself returns `void`). -/
structure Counters where
  totalProcessed : Nat
  updatedCount : Nat
  errorCount : Nat
  deriving DecidableEq, Repr

/-- The per-token task inside `Promise.allSettled(batch.map(...))`: fetch
the new price from the oracle, then `token.updatePrice(newPrice, new
Date())`.  A rejection of either step settles this token's promise as
rejected. -/
def processToken (oracle : Token → Except String JSNumber) (now : Nat)
    (token : Token) : Except String Token := do
  let newPrice ← oracle token
  token.updatePrice newPrice now

/-- One step of the `results.forEach` loop of `execute`: a fulfilled
result pushes the token (whose queue is drained by `pullEvents`) onto
`tokensToSave`, appends its events to `allEvents` and increments
`updatedCount`; a rejected result increments `errorCount`. -/
def collectStep (acc : List Token × List DomainEvent × Nat × Nat)
    (r : Except String Token) : List Token × List DomainEvent × Nat × Nat :=
  match r with
  | .ok t =>
      let (evs, drained) := t.pullEvents
      (acc.1 ++ [drained], acc.2.1 ++ evs, acc.2.2.1 + 1, acc.2.2.2)
  | .error _ => (acc.1, acc.2.1, acc.2.2.1, acc.2.2.2 + 1)

/-- The whole `results.forEach` loop of `execute`, starting from empty
collections and zero increments. -/
def collectResults (results : List (Except String Token)) :
    List Token × List DomainEvent × Nat × Nat :=
  results.foldl collectStep ([], [], 0, 0)

/-- Outcome of the batch after the `saveBatch` await: a rejection
propagates, otherwise the callback finishes with the updated counters. -/
def saveResult (r : Except String Unit) (after : Counters) : Except String Counters :=
  match r with
  | .ok _ => .ok after
  | .error e => .error e

/-- One iteration of the `processAll` callback in `execute`: settle every
token's oracle/update task, collect survivors and events, publish the
events (if any), save the surviving tokens (if any), and update the
counters.  A rejection of `publish` or `saveBatch` propagates out of the
callback.  Returns the trace of issued batch-level calls together with
either the updated counters or the propagated error. -/
def handleBatch (oracle : Token → Except String JSNumber)
    (publish : List DomainEvent → Except String Unit)
    (saveBatch : List Token → Except String Unit)
    (now : Nat) (batch : List Token) (c : Counters) :
    List Effect × Except String Counters :=
  let results := batch.map (processToken oracle now)
  let collected := collectResults results
  let tokensToSave := collected.1
  let allEvents := collected.2.1
  let afterCounts : Counters :=
    { totalProcessed := c.totalProcessed + batch.length
      updatedCount := c.updatedCount + collected.2.2.1
      errorCount := c.errorCount + collected.2.2.2 }
  if allEvents.isEmpty then
    if tokensToSave.isEmpty then ([], .ok afterCounts)
    else ([.saveCall tokensToSave], saveResult (saveBatch tokensToSave) afterCounts)
  else
    match publish allEvents with
    | .error e => ([.publishCall allEvents], .error e)
    | .ok _ =>
      if tokensToSave.isEmpty then ([.publishCall allEvents], .ok afterCounts)
      else ([.publishCall allEvents, .saveCall tokensToSave],
        saveResult (saveBatch tokensToSave) afterCounts)

/-- The whole run over the stream of batches produced by
`repo.processAll`: batches are processed sequentially; the first
rejection of a batch callback propagates out of `processAll` and out of
`execute` (whose `catch` logs and re-throws), so later batches are never
reached.  On success the final counters are only logged/recorded —
`execute` returns `void`. -/
def executeRun (oracle : Token → Except String JSNumber)
    (publish : List DomainEvent → Except String Unit)
    (saveBatch : List Token → Except String Unit)
    (now : Nat) : List (List Token) → Counters → List Effect × Except String Counters
  | [], c => ([], .ok c)
  | batch :: rest, c =>
    match handleBatch oracle publish saveBatch now batch c with
    | (trace, .error e) => (trace, .error e)
    | (trace, .ok c') =>
      let (trace', r) := executeRun oracle publish saveBatch now rest c'
      (trace ++ trace', r)

/-- Counters all start at 0 at the top of `execute`. -/
def initialCounters : Counters := ⟨0, 0, 0⟩

/-! ## Cursor-based streaming (`PrismaTokenRepository.processAll`)

The store is modelled as the list of row keys in the `orderBy: id asc`
order the database returns; keys are generic over a type with decidable
equality (the repository uses string primary keys).  One
`prisma.token.findMany({take, cursor, skip: 1, orderBy: id asc})` call
positions at the row whose id equals the cursor, skips it, and takes the
next `batchSize` rows. -/
def fetchBatch {α : Type} [DecidableEq α] (store : List α) (cursor : Option α)
    (batchSize : Nat) : List α :=
  match cursor with
  | none => store.take batchSize
  | some c => (((store.dropWhile (· ≠ c)).drop 1).take batchSize)

/-- The `while (true)` loop of `processAll`: fetch a batch; stop on an
empty batch; otherwise hand it to the callback, advance the cursor to the
batch's last id, and stop if the batch was shorter than `batchSize`.  The
fuel argument bounds the iteration count (the loop consumes at least one
row per iteration); `streamBatches` supplies enough fuel for the loop
never to hit 0. -/
def processAllGo {α : Type} [DecidableEq α] (store : List α) (batchSize : Nat) :
    Nat → Option α → List (List α)
  | 0, _ => []
  | fuel + 1, cursor =>
    let rows := fetchBatch store cursor batchSize
    match rows.getLast? with
    | none => []
    | some last =>
      if rows.length < batchSize then [rows]
      else rows :: processAllGo store batchSize fuel (some last)

/-- The sequence of batches `processAll(callback, batchSize)` feeds to
its callback. -/
def streamBatches {α : Type} [DecidableEq α] (store : List α) (batchSize : Nat) :
    List (List α) :=
  processAllGo store batchSize (store.length + 1) none

/-! ## Auxiliary observables and concrete fixtures -/

/-- A token as it sits in `tokensToSave` after its queue was drained by
`pullEvents` inside the collection loop. -/
def drainToken (t : Token) : Token := { t with events := [] }

/-- The token of a fulfilled per-token result. -/
def okTokenOf : Except String Token → Option Token
  | .ok t => some t
  | .error _ => none

/-- Whether a per-token result settled fulfilled. -/
def isOkResult : Except String Token → Bool
  | .ok _ => true
  | .error _ => false

/-- Number of oracle requests in flight at once for one batch.
`Promise.allSettled(batch.map(async (token) => ...))` invokes every async
closure synchronously during `map`; each closure runs up to its first
`await`, which is the oracle call, before any result is awaited, so all
`batch.length` oracle requests are pending simultaneously.  The handler
has no concurrency-limit parameter anywhere. -/
def oracleCallsInFlight (batch : List Token) : Nat := batch.length

/-- Fixture builder: a restored token with the given id, symbol, current
scaled amount and last-update time (event queue empty, as after
`Token.restore`). -/
def mkToken (id : String) (symbol : Option String) (amount : Int) (time : Nat) : Token :=
  { id := id, contractAddress := [0, 1], symbol := symbol, displayName := none
    decimalPlaces := 18, isNativeToken := false, chainId := "chain-1"
    isSystemProtected := false, lastModifiedBy := none, displayPriority := 0
    currentPrice := ⟨amount⟩, lastPriceUpdateDateTime := time, events := [] }

/-- The number `1` (rendering `"1"`). -/
def numOne : JSNumber := ⟨false, .positional ⟨[1], []⟩⟩

/-- The number `2.5` (rendering `"2.5"`). -/
def numTwoHalf : JSNumber := ⟨false, .positional ⟨[2], [5]⟩⟩

/-- The number `0.5` (rendering `"0.5"`). -/
def numHalf : JSNumber := ⟨false, .positional ⟨[0], [5]⟩⟩

/-- Scenario token A: current price `1`. -/
def tokA : Token := mkToken "A" (some "AAA") 100000000 3

/-- Scenario token B: current price `2`. -/
def tokB : Token := mkToken "B" (some "BBB") 200000000 3

/-- Scenario token C: current price `3`. -/
def tokC : Token := mkToken "C" (some "CCC") 300000000 3

/-- Scenario oracle: unchanged price for A, higher for B, lower for C. -/
def oracleC5 (t : Token) : Except String JSNumber :=
  if t.id = "A" then .ok numOne
  else if t.id = "B" then .ok numTwoHalf
  else .ok numHalf

/-- Event emitted for token B in the scenario (`2 → 2.5` at time 7). -/
def evB : DomainEvent :=
  ⟨"PriceUpdated", ⟨"B", some "BBB", 200000000, numTwoHalf⟩, 7⟩

/-- Event emitted for token C in the scenario (`3 → 0.5` at time 7). -/
def evC : DomainEvent :=
  ⟨"PriceUpdated", ⟨"C", some "CCC", 300000000, numHalf⟩, 7⟩

/-- Token B after the scenario update, queue drained. -/
def tokB1 : Token :=
  { tokB with currentPrice := ⟨250000000⟩, lastPriceUpdateDateTime := 7, events := [] }

/-- Token C after the scenario update, queue drained. -/
def tokC1 : Token :=
  { tokC with currentPrice := ⟨50000000⟩, lastPriceUpdateDateTime := 7, events := [] }

/-! ## Digit arithmetic lemmas -/

theorem digitsToNat_cons (d : Nat) (ds : List Nat) :
    digitsToNat (d :: ds) = ds.foldl (fun a x => 10 * a + x) d := by
  simp [digitsToNat]

theorem foldl_digits_eq (ds : List Nat) :
    ∀ x : Nat, ds.foldl (fun a d => 10 * a + d) x = x * 10 ^ ds.length + digitsToNat ds := by
  induction ds with
  | nil => intro x; simp [digitsToNat]
  | cons d ds ih =>
    intro x
    have h1 : (d :: ds).foldl (fun a d => 10 * a + d) x =
        ds.foldl (fun a d => 10 * a + d) (10 * x + d) := rfl
    rw [h1, ih (10 * x + d), digitsToNat_cons, ih d]
    simp [List.length_cons, pow_succ]
    ring

theorem digitsToNat_append (a b : List Nat) :
    digitsToNat (a ++ b) = digitsToNat a * 10 ^ b.length + digitsToNat b := by
  unfold digitsToNat
  rw [List.foldl_append, foldl_digits_eq b]
  rfl

theorem digitsToNat_replicate_zero (k : Nat) :
    digitsToNat (List.replicate k 0) = 0 := by
  induction k with
  | zero => rfl
  | succ n ih =>
    have : List.replicate (n + 1) 0 = 0 :: List.replicate n 0 := rfl
    rw [this, digitsToNat_cons]
    simpa [digitsToNat] using ih

theorem digitsToNat_lt (ds : List Nat) (h : ∀ d ∈ ds, d < 10) :
    digitsToNat ds < 10 ^ ds.length := by
  induction ds with
  | nil => simp [digitsToNat]
  | cons d ds ih =>
    have hd : d < 10 := h d (List.mem_cons_self d ds)
    have hds : ∀ x ∈ ds, x < 10 := fun x hx => h x (List.mem_cons_of_mem d hx)
    have : digitsToNat (d :: ds) = d * 10 ^ ds.length + digitsToNat ds := by
      rw [digitsToNat_cons, foldl_digits_eq]
    rw [this]
    calc d * 10 ^ ds.length + digitsToNat ds
        < d * 10 ^ ds.length + 10 ^ ds.length := by
          exact Nat.add_lt_add_left (ih hds) _
      _ = (d + 1) * 10 ^ ds.length := by ring
      _ ≤ 10 * 10 ^ ds.length := by
          exact Nat.mul_le_mul_right _ hd
      _ = 10 ^ (d :: ds).length := by
          simp [List.length_cons, pow_succ]; ring

theorem digitsToNat_reverse (L : List Nat) :
    digitsToNat L.reverse = Nat.ofDigits 10 L := by
  induction L with
  | nil => simp [digitsToNat, Nat.ofDigits]
  | cons x xs ih =>
    rw [List.reverse_cons, digitsToNat_append, ih]
    simp [digitsToNat, Nat.ofDigits]
    ring

theorem digitsToNat_natDigits (n : Nat) : digitsToNat (natDigits n) = n := by
  unfold natDigits
  by_cases h : n = 0
  · simp [h, digitsToNat]
  · simp only [h, if_false]
    rw [digitsToNat_reverse]
    exact_mod_cast Nat.ofDigits_digits 10 n

theorem natDigits_length_le (r k : Nat) (hk : 1 ≤ k) (h : r < 10 ^ k) :
    (natDigits r).length ≤ k := by
  unfold natDigits
  by_cases hr : r = 0
  · simpa [hr] using hk
  · simp only [hr, if_false, List.length_reverse]
    have h1 : 10 ^ (Nat.digits 10 r).length ≤ 10 * r :=
      Nat.base_pow_length_digits_le 10 r (by norm_num) hr
    have h2 : 10 * r < 10 * 10 ^ k := by omega
    have h3 : 10 ^ (Nat.digits 10 r).length < 10 ^ (k + 1) := by
      calc 10 ^ (Nat.digits 10 r).length ≤ 10 * r := h1
        _ < 10 * 10 ^ k := h2
        _ = 10 ^ (k + 1) := by ring
    have := (Nat.pow_lt_pow_iff_right (a := 10) (by norm_num)).mp h3
    omega

theorem padDigits8_length (r : Nat) (h : r < 10 ^ 8) :
    (padDigits8 r).length = 8 := by
  unfold padDigits8
  have := natDigits_length_le r 8 (by norm_num) h
  simp [List.length_append, List.length_replicate]
  omega

theorem digitsToNat_padDigits8 (r : Nat) : digitsToNat (padDigits8 r) = r := by
  unfold padDigits8
  rw [digitsToNat_append, digitsToNat_replicate_zero, digitsToNat_natDigits]
  simp

theorem exists_dropTrailingZeros_append (ds : List Nat) :
    ∃ k, ds = dropTrailingZeros ds ++ List.replicate k 0 := by
  refine ⟨(ds.reverse.takeWhile (· = 0)).length, ?_⟩
  unfold dropTrailingZeros
  have hsplit : ds.reverse.takeWhile (· = 0) ++ ds.reverse.dropWhile (· = 0) = ds.reverse :=
    List.takeWhile_append_dropWhile _ _
  have htake : ds.reverse.takeWhile (· = 0) =
      List.replicate (ds.reverse.takeWhile (· = 0)).length 0 := by
    apply List.eq_replicate_of_mem
    intro b hb
    have := List.mem_takeWhile_imp hb
    simpa using this
  calc ds = ds.reverse.reverse := (List.reverse_reverse ds).symm
    _ = (ds.reverse.takeWhile (· = 0) ++ ds.reverse.dropWhile (· = 0)).reverse := by
        rw [hsplit]
    _ = (ds.reverse.dropWhile (· = 0)).reverse ++ (ds.reverse.takeWhile (· = 0)).reverse := by
        rw [List.reverse_append]
    _ = (ds.reverse.dropWhile (· = 0)).reverse ++
          List.replicate (ds.reverse.takeWhile (· = 0)).length 0 := by
        conv_lhs => rw [htake, List.reverse_replicate]

theorem padTo8_dropTrailingZeros (ds : List Nat) (h : ds.length = 8) :
    padTo8 (dropTrailingZeros ds) = ds := by
  obtain ⟨k, hk⟩ := exists_dropTrailingZeros_append ds
  have hlen : (dropTrailingZeros ds).length + k = 8 := by
    have := congrArg List.length hk
    simpa [List.length_append, List.length_replicate, h] using this.symm
  unfold padTo8
  rw [List.take_append_eq_append_take]
  have h1 : (dropTrailingZeros ds).take 8 = dropTrailingZeros ds :=
    List.take_of_length_le (by omega)
  rw [h1, List.take_replicate]
  have h2 : min (8 - (dropTrailingZeros ds).length) 8 = k := by omega
  rw [h2, hk.symm]

theorem padTo8_length (ds : List Nat) : (padTo8 ds).length = 8 := by
  unfold padTo8
  rw [List.length_take, List.length_append, List.length_replicate]
  omega

theorem padTo8_of_length_le (ds : List Nat) (h : ds.length ≤ 8) :
    padTo8 ds = ds ++ List.replicate (8 - ds.length) 0 := by
  unfold padTo8
  rw [List.take_append_eq_append_take, List.take_of_length_le h, List.take_replicate]
  have hmin : min (8 - ds.length) 8 = 8 - ds.length := by omega
  rw [hmin]

/-! ## Round-trip machinery for `TokenPrice` -/

theorem scaled8_decomp (d : DecimalString) :
    scaled8 d = digitsToNat d.intDigits * 10 ^ 8 + digitsToNat (padTo8 d.fracDigits) := by
  unfold scaled8
  rw [digitsToNat_append, padTo8_length]

theorem padTo8_digits_lt (ds : List Nat) (h : ∀ y ∈ ds, y < 10) :
    ∀ x ∈ padTo8 ds, x < 10 := by
  intro x hx
  unfold padTo8 at hx
  have hx' := List.mem_of_mem_take hx
  rcases List.mem_append.mp hx' with h1 | h2
  · exact h x h1
  · have := List.eq_of_mem_replicate h2
    omega

theorem digitsToNat_padTo8_lt (ds : List Nat) (h : ∀ y ∈ ds, y < 10) :
    digitsToNat (padTo8 ds) < 10 ^ 8 := by
  have := digitsToNat_lt (padTo8 ds) (padTo8_digits_lt ds h)
  rwa [padTo8_length ds] at this

theorem scaled8_format (n : Nat) :
    (formatAmountToDecimalString (n : Int)).negative = false ∧
      scaled8 (formatAmountToDecimalString (n : Int)).digits = n := by
  unfold formatAmountToDecimalString
  constructor
  · simp
  · have hr : n % 10 ^ 8 < 10 ^ 8 := Nat.mod_lt _ (by norm_num)
    have habs : (n : Int).natAbs = n := Int.natAbs_ofNat n
    rw [scaled8_decomp]
    simp only [habs]
    rw [padTo8_dropTrailingZeros _ (padDigits8_length _ hr),
      digitsToNat_padDigits8, digitsToNat_natDigits]
    rw [Nat.mul_comm]
    exact Nat.div_add_mod n (10 ^ 8)

theorem scaled8_core_mul (d : DecimalString) (h : d.fracDigits.length ≤ 8) :
    scaled8 d =
      digitsToNat (d.intDigits ++ d.fracDigits) * 10 ^ (8 - d.fracDigits.length) := by
  unfold scaled8
  rw [padTo8_of_length_le _ h, ← List.append_assoc, digitsToNat_append,
    digitsToNat_replicate_zero, List.length_replicate]
  omega

theorem parseEx_ok (d v : DecimalString)
    (h : TokenPriceStringSchema.parseEx d = .ok v) :
    v = d ∧ isDecimalFormat d = true ∧ 0 < scaled8 d := by
  unfold TokenPriceStringSchema.parseEx at h
  by_cases h1 : isDecimalFormat d
  · simp only [h1, if_true] at h
    by_cases h2 : 0 < scaled8 d
    · simp only [h2, if_true] at h
      exact ⟨(Except.ok.injEq _ _).mp h |>.symm, h1, h2⟩
    · simp [h2] at h
  · simp [h1] at h

theorem parseEx_ok_of (d : DecimalString) (h1 : isDecimalFormat d = true)
    (h2 : 0 < scaled8 d) : TokenPriceStringSchema.parseEx d = .ok d := by
  unfold TokenPriceStringSchema.parseEx
  simp [h1, h2]

theorem parseNumberToAmount_ok (n : JSNumber) (a : Int)
    (h : parseNumberToAmount n = .ok a) : 0 < a := by
  unfold parseNumberToAmount at h
  by_cases h1 : n.negative || n.isZeroValue
  · simp [h1] at h
  · simp only [h1, Bool.false_eq_true, if_false] at h
    by_cases h2 : n.exceedsMaxSafeInteger
    · simp [h2] at h
    · simp only [h2, Bool.false_eq_true, if_false] at h
      match hr : n.rendering with
      | .scientific m e => rw [hr] at h; simp at h
      | .positional d =>
        rw [hr] at h
        by_cases h3 : 8 < d.fracDigits.length
        · simp [h3] at h
        · simp only [h3, if_false] at h
          match hv : TokenPriceStringSchema.parseEx d with
          | .error e => rw [hv] at h; simp [Except.bind] at h
          | .ok v =>
            rw [hv] at h
            obtain ⟨hvd, _, hpos⟩ := parseEx_ok d v hv
            simp only [Except.bind, pure, Except.pure] at h
            have ha : a = parseDecimalStringToAmount v := by
              cases h; rfl
            subst ha hvd
            unfold parseDecimalStringToAmount
            exact_mod_cast hpos

theorem isDecimalFormat_iff (d : DecimalString) :
    isDecimalFormat d = true ↔
      d.intDigits ≠ [] ∧ (∀ x ∈ d.intDigits, x < 10) ∧
        (∀ x ∈ d.fracDigits, x < 10) ∧ d.fracDigits.length ≤ 8 := by
  unfold isDecimalFormat
  simp [List.all_eq_true, List.isEmpty_iff, and_assoc]

theorem create_str_ok (d : DecimalString) (h1 : isDecimalFormat d = true)
    (h2 : 0 < scaled8 d) :
    TokenPrice.create (.str d) = .ok ⟨(scaled8 d : Int)⟩ := by
  have hdef : TokenPrice.create (.str d) =
      (TokenPriceStringSchema.parseEx d).bind
        (fun validated => pure (TokenPrice.mk (parseDecimalStringToAmount validated))) := rfl
  rw [hdef, parseEx_ok_of d h1 h2]
  rfl

theorem create_num_positional_ok (d : DecimalString) (h1 : isDecimalFormat d = true)
    (h2 : 0 < scaled8 d) (h3 : scaled8 d ≤ MAX_SAFE_INTEGER * 10 ^ 8) :
    TokenPrice.create (.num ⟨false, .positional d⟩) = .ok ⟨(scaled8 d : Int)⟩ := by
  obtain ⟨-, -, -, hlen⟩ := (isDecimalFormat_iff d).mp h1
  have hcore : digitsToNat (d.intDigits ++ d.fracDigits) ≠ 0 := by
    intro hz
    rw [scaled8_core_mul d hlen, hz] at h2
    simp at h2
  unfold TokenPrice.create parseNumberToAmount
  have hzero : JSNumber.isZeroValue ⟨false, .positional d⟩ = false := by
    unfold JSNumber.isZeroValue
    simpa using hcore
  have hmsi : JSNumber.exceedsMaxSafeInteger ⟨false, .positional d⟩ = false := by
    unfold JSNumber.exceedsMaxSafeInteger
    have hle : ¬ MAX_SAFE_INTEGER * 10 ^ 8 < scaled8 d := Nat.not_lt.mpr h3
    show (decide (MAX_SAFE_INTEGER * 10 ^ 8 < scaled8 d) && !false) = false
    rw [decide_eq_false hle]
    rfl
  simp only [hzero, hmsi, Bool.or_false, Bool.false_eq_true, if_false]
  simp only [Nat.not_lt.mpr hlen, if_false]
  rw [parseEx_ok_of d h1 h2]
  rfl

/-- C8 (amended).  For every decimal string matching the price grammar
(nonempty digit integer part, at most 8 fraction digits, positive value),
`create` succeeds and `toString` renders the same decimal value (the
scaled-by-`10^8` value of the output equals that of the input, i.e. no
precision loss); the same holds for every number whose decimal rendering
is positional with at most 8 fraction digits and whose value is positive
and at most `Number.MAX_SAFE_INTEGER`.  (The claim's unrestricted "for
every number" fails: see the counterexample.) -/
theorem C8_create_toString_roundtrip :
    (∀ d : DecimalString, isDecimalFormat d = true → 0 < scaled8 d →
      TokenPrice.create (.str d) = .ok ⟨(scaled8 d : Int)⟩ ∧
      (TokenPrice.toDecimalString ⟨(scaled8 d : Int)⟩).negative = false ∧
      scaled8 (TokenPrice.toDecimalString ⟨(scaled8 d : Int)⟩).digits = scaled8 d) ∧
    (∀ d : DecimalString, isDecimalFormat d = true → 0 < scaled8 d →
      scaled8 d ≤ MAX_SAFE_INTEGER * 10 ^ 8 →
      TokenPrice.create (.num ⟨false, .positional d⟩) = .ok ⟨(scaled8 d : Int)⟩ ∧
      scaled8 (TokenPrice.toDecimalString ⟨(scaled8 d : Int)⟩).digits = scaled8 d) := by
  constructor
  · intro d h1 h2
    refine ⟨create_str_ok d h1 h2, ?_, ?_⟩
    · exact (scaled8_format (scaled8 d)).1
    · exact (scaled8_format (scaled8 d)).2
  · intro d h1 h2 h3
    exact ⟨create_num_positional_ok d h1 h2 h3, (scaled8_format (scaled8 d)).2⟩

/-- C8 counterexample.  The number `2^53 = 9007199254740992` has zero
fraction digits and positive value, yet `create` rejects it with the
safe-integer error (the repository's own test
`token-price.spec.ts` asserts exactly this); and the number `1e-8` has 8
fraction digits and positive value, yet its rendering is scientific, so
the Zod schema rejects it. -/
theorem C8_counterexample :
    TokenPrice.create
        (.num ⟨false, .positional ⟨[9, 0, 0, 7, 1, 9, 9, 2, 5, 4, 7, 4, 0, 9, 9, 2], []⟩⟩) =
      .error "Token price exceeds safe integer limit" ∧
    TokenPrice.create (.num ⟨false, .scientific ⟨[1], []⟩ 8⟩) =
      .error "Invalid decimal string (max 8 fraction digits)" := by
  constructor <;> rfl

/-- C8 witness: the theorem applied at the concrete string and number
`12.5`, whose scaled amount is `1250000000`. -/
theorem C8_create_toString_roundtrip_witness :
    isDecimalFormat ⟨[1, 2], [5]⟩ = true ∧ 0 < scaled8 ⟨[1, 2], [5]⟩ ∧
    TokenPrice.create (.str ⟨[1, 2], [5]⟩) = .ok ⟨(scaled8 ⟨[1, 2], [5]⟩ : Int)⟩ ∧
    TokenPrice.create (.num ⟨false, .positional ⟨[1, 2], [5]⟩⟩) =
      .ok ⟨(scaled8 ⟨[1, 2], [5]⟩ : Int)⟩ ∧
    scaled8 (TokenPrice.toDecimalString ⟨(scaled8 ⟨[1, 2], [5]⟩ : Int)⟩).digits =
      scaled8 ⟨[1, 2], [5]⟩ :=
  ⟨by decide, by decide,
    (C8_create_toString_roundtrip.1 ⟨[1, 2], [5]⟩ (by decide) (by decide)).1,
    (C8_create_toString_roundtrip.2 ⟨[1, 2], [5]⟩ (by decide) (by decide) (by decide)).1,
    (C8_create_toString_roundtrip.1 ⟨[1, 2], [5]⟩ (by decide) (by decide)).2.2⟩

theorem create_ok_pos (v : PriceInput) (p : TokenPrice)
    (h : TokenPrice.create v = .ok p) : 0 < p.amount := by
  match v with
  | .num n =>
    have hdef : TokenPrice.create (.num n) =
        (parseNumberToAmount n).bind (fun a => pure (TokenPrice.mk a)) := rfl
    rw [hdef] at h
    match hr : parseNumberToAmount n with
    | .error e => rw [hr] at h; simp [Except.bind] at h
    | .ok a =>
      rw [hr] at h
      simp only [Except.bind, pure, Except.pure, Except.ok.injEq] at h
      have := parseNumberToAmount_ok n a hr
      rw [← h]
      exact this
  | .str d =>
    have hdef : TokenPrice.create (.str d) =
        (TokenPriceStringSchema.parseEx d).bind
          (fun validated => pure (TokenPrice.mk (parseDecimalStringToAmount validated))) := rfl
    rw [hdef] at h
    match hr : TokenPriceStringSchema.parseEx d with
    | .error e => rw [hr] at h; simp [Except.bind] at h
    | .ok v' =>
      rw [hr] at h
      obtain ⟨hvd, -, hpos⟩ := parseEx_ok d v' hr
      simp only [Except.bind, pure, Except.pure, Except.ok.injEq] at h
      rw [← h, hvd]
      show (0 : Int) < (scaled8 d : Int)
      exact_mod_cast hpos

/-- C9.  Every `TokenPrice` ever constructed has a scaled amount
strictly greater than 0: `create(0)`, `create(-5)` and `create` of a
value with 9 fractional digits all fail with the invalid-price error
(string inputs through the schema regex, number inputs through the
decimal-places check); `fromAmountString` rejects non-positive amounts;
and `add`, `subtract` and `multiply` fail with the invalid-price error
whenever the computed result would be `≤ 0`, so every successful
operation returns a positive amount. -/
theorem C9_positivity_invariant :
    TokenPrice.create (.num ⟨false, .positional ⟨[0], []⟩⟩) =
      .error "Token price must be positive" ∧
    TokenPrice.create (.num ⟨true, .positional ⟨[5], []⟩⟩) =
      .error "Token price must be positive" ∧
    TokenPrice.create (.str ⟨[1], [1, 2, 3, 4, 5, 6, 7, 8, 9]⟩) =
      .error "Invalid decimal string (max 8 fraction digits)" ∧
    TokenPrice.create (.num ⟨false, .positional ⟨[1], [1, 2, 3, 4, 5, 6, 7, 8, 9]⟩⟩) =
      .error "Too many decimal places for token price precision" ∧
    (∀ v p, TokenPrice.create v = .ok p → 0 < p.amount) ∧
    (∀ a p, TokenPrice.fromAmountString a = .ok p → 0 < p.amount) ∧
    (∀ p q : TokenPrice, p.amount + q.amount ≤ 0 →
      p.add q = .error "Token price must be positive") ∧
    (∀ p q r : TokenPrice, p.add q = .ok r → 0 < r.amount) ∧
    (∀ p q : TokenPrice, p.amount - q.amount ≤ 0 →
      p.subtract q = .error "Token price must be positive") ∧
    (∀ p q r : TokenPrice, p.subtract q = .ok r → 0 < r.amount) ∧
    (∀ (p : TokenPrice) (neg : Bool) (f : DecimalString), p.multiplyRounded f ≤ 0 →
      p.multiply neg f = .error "Token price must be positive") ∧
    (∀ (p : TokenPrice) (neg : Bool) (f : DecimalString) (r : TokenPrice),
      p.multiply neg f = .ok r → 0 < r.amount) := by
  refine ⟨rfl, rfl, rfl, rfl, create_ok_pos, ?_, ?_, ?_, ?_, ?_, ?_, ?_⟩
  · intro a p h
    unfold TokenPrice.fromAmountString at h
    split at h
    · simp at h
    · simp only [Except.ok.injEq] at h
      rw [← h]
      show (0 : Int) < a
      omega
  · intro p q h
    unfold TokenPrice.add
    simp only [h, if_pos]
  · intro p q r h
    have h' : (if p.amount + q.amount ≤ 0 then
        (Except.error "Token price must be positive" : Except String TokenPrice)
        else .ok ⟨p.amount + q.amount⟩) = .ok r := h
    split at h'
    · simp at h'
    · simp only [Except.ok.injEq] at h'
      rw [← h']
      show (0 : Int) < p.amount + q.amount
      omega
  · intro p q h
    unfold TokenPrice.subtract
    simp only [h, if_pos]
  · intro p q r h
    have h' : (if p.amount - q.amount ≤ 0 then
        (Except.error "Token price must be positive" : Except String TokenPrice)
        else .ok ⟨p.amount - q.amount⟩) = .ok r := h
    split at h'
    · simp at h'
    · simp only [Except.ok.injEq] at h'
      rw [← h']
      show (0 : Int) < p.amount - q.amount
      omega
  · intro p neg f h
    show (if (neg || decide (digitsToNat (f.intDigits ++ f.fracDigits) = 0)) = true then
        (Except.error "Token price must be positive" : Except String TokenPrice)
        else if p.multiplyRounded f ≤ 0 then .error "Token price must be positive"
        else .ok ⟨p.multiplyRounded f⟩) = .error "Token price must be positive"
    split
    · rfl
    · simp only [h, if_pos]
  · intro p neg f r h
    have h' : (if (neg || decide (digitsToNat (f.intDigits ++ f.fracDigits) = 0)) = true then
        (Except.error "Token price must be positive" : Except String TokenPrice)
        else if p.multiplyRounded f ≤ 0 then .error "Token price must be positive"
        else .ok ⟨p.multiplyRounded f⟩) = .ok r := h
    split at h'
    · simp at h'
    · split at h'
      · simp at h'
      · simp only [Except.ok.injEq] at h'
        rw [← h']
        show (0 : Int) < p.multiplyRounded f
        omega

/-- C9 witness: the hypothesised components of the theorem applied at
concrete inputs: `create("2.5")` yields a positive amount, `1 - 1 ≤ 0`
makes `subtract` fail, and a zero-rounding factor makes `multiply`
fail. -/
theorem C9_positivity_invariant_witness :
    (0 : Int) <
      (TokenPrice.mk 250000000).amount ∧
    TokenPrice.subtract ⟨100000000⟩ ⟨100000000⟩ = .error "Token price must be positive" ∧
    TokenPrice.multiply ⟨1⟩ false ⟨[0], [4]⟩ = .error "Token price must be positive" :=
  ⟨C9_positivity_invariant.2.2.2.2.1 (.str ⟨[2], [5]⟩) ⟨250000000⟩ (by rfl),
    C9_positivity_invariant.2.2.2.2.2.2.2.2.1 ⟨100000000⟩ ⟨100000000⟩ (by decide),
    C9_positivity_invariant.2.2.2.2.2.2.2.2.2.2.1 ⟨1⟩ false ⟨[0], [4]⟩ (by decide)⟩

/-! ## Token aggregate behaviour -/

theorem updatePrice_def (t : Token) (n : JSNumber) (occurredAt : Nat) :
    t.updatePrice n occurredAt =
      (TokenPrice.create (.num n)).bind (fun newTokenPrice =>
        if newTokenPrice.equalsPrice t.currentPrice then pure t
        else pure
          { t with
            currentPrice := newTokenPrice
            lastPriceUpdateDateTime := occurredAt
            events := t.events ++
              [{ name := "PriceUpdated"
                 payload :=
                   { tokenId := t.id, symbol := t.symbol
                     oldPriceAmount := t.currentPrice.amount, newPrice := n }
                 occurredAt := occurredAt }] }) := rfl

/-- C6.  Calling `updatePrice` with a price that is equal by value to the
current price (its parsed `TokenPrice` has the same scaled amount) is a
no-op: the call returns the token unchanged — no event is enqueued,
`currentPrice` is unchanged and `lastPriceUpdateDateTime` keeps its
previous value. -/
theorem C6_updatePrice_equal_noop (t : Token) (n : JSNumber) (occurredAt : Nat)
    (p : TokenPrice) (h1 : TokenPrice.create (.num n) = .ok p)
    (h2 : p.amount = t.currentPrice.amount) :
    t.updatePrice n occurredAt = .ok t := by
  rw [updatePrice_def, h1]
  have heq : p.equalsPrice t.currentPrice = true := by
    unfold TokenPrice.equalsPrice
    exact decide_eq_true h2
  simp [Except.bind, heq, pure, Except.pure]

/-- C6 witness: updating token A (price `1`) with the number `1` at time
9 leaves it untouched. -/
theorem C6_updatePrice_equal_noop_witness :
    TokenPrice.create (.num numOne) = .ok ⟨100000000⟩ ∧
    tokA.updatePrice numOne 9 = .ok tokA :=
  ⟨by rfl, C6_updatePrice_equal_noop tokA numOne 9 ⟨100000000⟩ (by rfl) (by rfl)⟩

/-- C7.  Calling `updatePrice` with a price different by value from the
current price (on a token whose pending queue is empty, as every token
freshly restored from the store is) enqueues exactly one `PriceUpdated`
event carrying the token's id and symbol, the old price and the argument
as new price, and sets `lastPriceUpdateDateTime` to the given timestamp;
`pullEvents` then returns exactly that event and clears the queue, so a
second `pullEvents` returns the empty list. -/
theorem C7_updatePrice_emits_one_event (t : Token) (n : JSNumber) (occurredAt : Nat)
    (p : TokenPrice) (h1 : TokenPrice.create (.num n) = .ok p)
    (h2 : p.amount ≠ t.currentPrice.amount) (h3 : t.events = []) :
    t.updatePrice n occurredAt = .ok
      { t with
        currentPrice := p
        lastPriceUpdateDateTime := occurredAt
        events := [{ name := "PriceUpdated"
                     payload := { tokenId := t.id, symbol := t.symbol
                                  oldPriceAmount := t.currentPrice.amount, newPrice := n }
                     occurredAt := occurredAt }] } ∧
    Token.pullEvents
        { t with
          currentPrice := p
          lastPriceUpdateDateTime := occurredAt
          events := [{ name := "PriceUpdated"
                       payload := { tokenId := t.id, symbol := t.symbol
                                    oldPriceAmount := t.currentPrice.amount, newPrice := n }
                       occurredAt := occurredAt }] } =
      ([{ name := "PriceUpdated"
          payload := { tokenId := t.id, symbol := t.symbol
                       oldPriceAmount := t.currentPrice.amount, newPrice := n }
          occurredAt := occurredAt }],
        { t with currentPrice := p, lastPriceUpdateDateTime := occurredAt, events := [] }) ∧
    Token.pullEvents
        { t with currentPrice := p, lastPriceUpdateDateTime := occurredAt, events := [] } =
      ([], { t with currentPrice := p, lastPriceUpdateDateTime := occurredAt, events := [] }) := by
  refine ⟨?_, rfl, rfl⟩
  rw [updatePrice_def, h1]
  have heq : p.equalsPrice t.currentPrice = false := by
    unfold TokenPrice.equalsPrice
    exact decide_eq_false h2
  simp [Except.bind, heq, pure, Except.pure, h3]

/-- C7 witness: updating token B (price `2`) with the number `2.5` at
time 7 emits exactly the scenario event, and draining twice empties the
queue. -/
theorem C7_updatePrice_emits_one_event_witness :
    tokB.updatePrice numTwoHalf 7 = .ok { tokB1 with events := [evB] } ∧
    Token.pullEvents { tokB1 with events := [evB] } = ([evB], tokB1) ∧
    Token.pullEvents tokB1 = ([], tokB1) := by
  have h := C7_updatePrice_emits_one_event tokB numTwoHalf 7 ⟨250000000⟩
    (by rfl) (by decide) (by rfl)
  exact ⟨h.1, h.2.1, h.2.2⟩

/-! ## Batch-step case analysis -/

theorem handleBatch_empty_empty (oracle : Token → Except String JSNumber)
    (publish : List DomainEvent → Except String Unit)
    (saveBatch : List Token → Except String Unit) (now : Nat) (batch : List Token)
    (c : Counters) (toks : List Token) (evs : List DomainEvent) (u e : Nat)
    (hc : collectResults (batch.map (processToken oracle now)) = (toks, evs, u, e))
    (hevs : evs = []) (htoks : toks = []) :
    handleBatch oracle publish saveBatch now batch c =
      ([], .ok ⟨c.totalProcessed + batch.length, c.updatedCount + u, c.errorCount + e⟩) := by
  unfold handleBatch
  simp only [hc, hevs, htoks]
  rfl

theorem handleBatch_empty_save (oracle : Token → Except String JSNumber)
    (publish : List DomainEvent → Except String Unit)
    (saveBatch : List Token → Except String Unit) (now : Nat) (batch : List Token)
    (c : Counters) (toks : List Token) (evs : List DomainEvent) (u e : Nat)
    (hc : collectResults (batch.map (processToken oracle now)) = (toks, evs, u, e))
    (hevs : evs = []) (htoks : toks ≠ []) :
    handleBatch oracle publish saveBatch now batch c =
      ([.saveCall toks], saveResult (saveBatch toks)
        ⟨c.totalProcessed + batch.length, c.updatedCount + u, c.errorCount + e⟩) := by
  unfold handleBatch
  simp only [hc, hevs]
  simp [List.isEmpty_iff, htoks]

theorem handleBatch_pub_error (oracle : Token → Except String JSNumber)
    (publish : List DomainEvent → Except String Unit)
    (saveBatch : List Token → Except String Unit) (now : Nat) (batch : List Token)
    (c : Counters) (toks : List Token) (evs : List DomainEvent) (u e : Nat) (er : String)
    (hc : collectResults (batch.map (processToken oracle now)) = (toks, evs, u, e))
    (hevs : evs ≠ []) (hp : publish evs = .error er) :
    handleBatch oracle publish saveBatch now batch c =
      ([.publishCall evs], .error er) := by
  unfold handleBatch
  simp only [hc]
  simp [List.isEmpty_iff, hevs, hp]

theorem handleBatch_pub_ok (oracle : Token → Except String JSNumber)
    (publish : List DomainEvent → Except String Unit)
    (saveBatch : List Token → Except String Unit) (now : Nat) (batch : List Token)
    (c : Counters) (toks : List Token) (evs : List DomainEvent) (u e : Nat)
    (hc : collectResults (batch.map (processToken oracle now)) = (toks, evs, u, e))
    (hevs : evs ≠ []) (hp : publish evs = .ok ()) :
    handleBatch oracle publish saveBatch now batch c =
      (if toks.isEmpty then ([.publishCall evs],
          .ok ⟨c.totalProcessed + batch.length, c.updatedCount + u, c.errorCount + e⟩)
        else ([.publishCall evs, .saveCall toks], saveResult (saveBatch toks)
          ⟨c.totalProcessed + batch.length, c.updatedCount + u, c.errorCount + e⟩)) := by
  unfold handleBatch
  simp only [hc]
  simp [List.isEmpty_iff, hevs, hp]

/-! ## Kafka producer / event bus behaviour -/

theorem sendPriceUpdateBatch_never_rejects (enabled : Bool)
    (transport : List KafkaMessage → Except String Unit) (messages : List KafkaMessage) :
    ∃ o, sendPriceUpdateBatch enabled transport messages = .ok o := by
  unfold sendPriceUpdateBatch
  by_cases hm : messages.isEmpty
  · exact ⟨.skippedEmpty, by simp [hm]⟩
  · simp only [hm, Bool.false_eq_true, if_false]
    cases hE : (if !enabled then (.ok .skippedDisabled : Except String SendOutcome)
        else
          let validMessages := messages.filter kafkaMessageValid
          if validMessages.isEmpty then .ok .skippedAllInvalid
          else do
            let _ ← transport validMessages
            pure (.sent validMessages.length)) with
    | ok o => exact ⟨o, rfl⟩
    | error e => exact ⟨.loggedError e, rfl⟩

theorem sendPriceUpdateBatch_disabled
    (transport : List KafkaMessage → Except String Unit) (messages : List KafkaMessage)
    (hm : messages ≠ []) :
    sendPriceUpdateBatch false transport messages = .ok .skippedDisabled := by
  unfold sendPriceUpdateBatch
  simp [List.isEmpty_iff, hm]

theorem kafkaPublish_never_rejects (enabled : Bool)
    (transport : Nat → List KafkaMessage → Except String Unit) (events : List DomainEvent) :
    KafkaEventBus.publish enabled transport events = .ok () := by
  unfold KafkaEventBus.publish
  set msgs := (events.filter (fun e => e.name = "PriceUpdated")).map toKafkaMessage with hmsgs
  by_cases hm : msgs.isEmpty
  · simp [hm]
  · simp only [hm, Bool.false_eq_true, if_false]
    obtain ⟨o, ho⟩ := sendPriceUpdateBatch_never_rejects enabled (transport 0) msgs
    show retryGo _ 0 3 = .ok ()
    unfold retryGo
    rw [ho]
    rfl

/-- C2.  The producer's batch send never rejects: the whole body sits in
a try/catch whose catch only logs, and when the producer is disabled the
call returns without touching the transport.  Consequently the
retry-wrapped `KafkaEventBus.publish` never rejects either, for every
transport behaviour, and the handler reaches `saveBatch` (the save call
appears in the trace) whenever there are surviving tokens — even when
every transport attempt fails, i.e. when no event reached the bus. -/
theorem C2_send_never_rejects :
    (∀ (enabled : Bool) (transport : List KafkaMessage → Except String Unit)
      (messages : List KafkaMessage),
      ∃ o, sendPriceUpdateBatch enabled transport messages = .ok o) ∧
    (∀ (transport : List KafkaMessage → Except String Unit) (messages : List KafkaMessage),
      messages ≠ [] → sendPriceUpdateBatch false transport messages = .ok .skippedDisabled) ∧
    (∀ (enabled : Bool) (transport : Nat → List KafkaMessage → Except String Unit)
      (events : List DomainEvent),
      KafkaEventBus.publish enabled transport events = .ok ()) ∧
    (∀ (enabled : Bool) (transport : Nat → List KafkaMessage → Except String Unit)
      (oracle : Token → Except String JSNumber) (saveBatch : List Token → Except String Unit)
      (now : Nat) (batch : List Token) (c : Counters),
      (collectResults (batch.map (processToken oracle now))).1 ≠ [] →
      Effect.saveCall (collectResults (batch.map (processToken oracle now))).1 ∈
        (handleBatch oracle (KafkaEventBus.publish enabled transport)
          saveBatch now batch c).1) := by
  refine ⟨sendPriceUpdateBatch_never_rejects, sendPriceUpdateBatch_disabled,
    kafkaPublish_never_rejects, ?_⟩
  intro enabled transport oracle saveBatch now batch c htoks
  rcases hc : collectResults (batch.map (processToken oracle now)) with ⟨toks, evs, u, e⟩
  rw [hc] at htoks
  simp only at htoks
  by_cases hevs : evs = []
  · rw [handleBatch_empty_save oracle _ saveBatch now batch c toks evs u e hc hevs htoks]
    simp [hc]
  · rw [handleBatch_pub_ok oracle _ saveBatch now batch c toks evs u e hc hevs
      (kafkaPublish_never_rejects enabled transport evs)]
    simp [hc, List.isEmpty_iff, htoks]

/-- C2 witness: with the producer disabled and a transport that always
fails, a one-token batch with a price change still reaches `saveBatch`,
and the disabled producer call is a silent no-op. -/
theorem C2_send_never_rejects_witness :
    sendPriceUpdateBatch false (fun _ => .error "broker down")
        [toKafkaMessage evB] = .ok .skippedDisabled ∧
    Effect.saveCall (collectResults ([tokB].map (processToken oracleC5 7))).1 ∈
      (handleBatch oracleC5 (KafkaEventBus.publish false (fun _ _ => .error "broker down"))
        (fun _ => .ok ()) 7 [tokB] initialCounters).1 :=
  ⟨C2_send_never_rejects.2.1 (fun _ => .error "broker down") [toKafkaMessage evB]
      (by simp),
    C2_send_never_rejects.2.2.2 false (fun _ _ => .error "broker down") oracleC5
      (fun _ => .ok ()) 7 [tokB] initialCounters (by decide)⟩

/-- C1.  For every batch, whenever the trace contains a `saveBatch`
invocation, either the batch collected no events or the publish call was
made, succeeded, and appears earlier in the trace; and when the publish
call fails (after the retries wrapped inside it are exhausted), the
callback rejects with that error and the trace is exactly the publish
attempt — `saveBatch` is never invoked for the batch's tokens. -/
theorem C1_publish_before_persist (oracle : Token → Except String JSNumber)
    (publish : List DomainEvent → Except String Unit)
    (saveBatch : List Token → Except String Unit) (now : Nat) (batch : List Token)
    (c : Counters) :
    (∀ (ts : List Token) (pre post : List Effect),
      (handleBatch oracle publish saveBatch now batch c).1 =
          pre ++ Effect.saveCall ts :: post →
      (collectResults (batch.map (processToken oracle now))).2.1 = [] ∨
        (publish (collectResults (batch.map (processToken oracle now))).2.1 = .ok () ∧
          Effect.publishCall (collectResults (batch.map (processToken oracle now))).2.1 ∈ pre)) ∧
    (∀ er : String,
      (collectResults (batch.map (processToken oracle now))).2.1 ≠ [] →
      publish (collectResults (batch.map (processToken oracle now))).2.1 = .error er →
      handleBatch oracle publish saveBatch now batch c =
        ([Effect.publishCall (collectResults (batch.map (processToken oracle now))).2.1],
          .error er)) := by
  rcases hc : collectResults (batch.map (processToken oracle now)) with ⟨toks, rest⟩
  rcases rest with ⟨evs, u, e⟩
  constructor
  · intro ts pre post h
    simp only [hc]
    by_cases hevs : evs = []
    · exact Or.inl hevs
    · cases hp : publish evs with
      | error er =>
        rw [handleBatch_pub_error oracle publish saveBatch now batch c toks evs u e er
          hc hevs hp] at h
        simp only [] at h
        rcases pre with _ | ⟨a, pre2⟩
        · simp at h
        · simp at h
      | ok un =>
        cases un
        rw [handleBatch_pub_ok oracle publish saveBatch now batch c toks evs u e
          hc hevs hp] at h
        by_cases htoks : toks.isEmpty
        · simp only [htoks, if_true] at h
          rcases pre with _ | ⟨a, pre2⟩
          · simp at h
          · simp at h
        · simp only [htoks, Bool.false_eq_true, if_false] at h
          rcases pre with _ | ⟨a, pre2⟩
          · simp at h
          · rcases pre2 with _ | ⟨b, pre3⟩
            · simp only [List.cons_append, List.nil_append, List.cons.injEq] at h
              exact Or.inr ⟨rfl, by rw [h.1]; exact List.mem_cons_self _ _⟩
            · exfalso
              simp only [List.cons_append, List.cons.injEq] at h
              have := h.2.2
              simp at this
  · intro er hevs hp
    simp only [hc] at hevs hp ⊢
    exact handleBatch_pub_error oracle publish saveBatch now batch c toks evs u e er
      hc hevs hp

/-- C1 witness: the theorem applied to a one-token batch whose price
changes.  With a succeeding publish the save is preceded by the
successful publish call; with a failing publish the callback rejects and
the trace is only the publish attempt. -/
theorem C1_publish_before_persist_witness :
    ((collectResults ([tokB].map (processToken oracleC5 7))).2.1 = [] ∨
      ((.ok () : Except String Unit) = .ok () ∧
        Effect.publishCall (collectResults ([tokB].map (processToken oracleC5 7))).2.1 ∈
          [Effect.publishCall [evB]])) ∧
    handleBatch oracleC5 (fun _ => .error "kafka down") (fun _ => .ok ()) 7 [tokB]
        initialCounters =
      ([Effect.publishCall (collectResults ([tokB].map (processToken oracleC5 7))).2.1],
        .error "kafka down") :=
  ⟨(C1_publish_before_persist oracleC5 (fun _ => .ok ()) (fun _ => .ok ()) 7 [tokB]
      initialCounters).1 [tokB1] [Effect.publishCall [evB]] [] (by decide),
    (C1_publish_before_persist oracleC5 (fun _ => .error "kafka down") (fun _ => .ok ()) 7
      [tokB] initialCounters).2 "kafka down" (by decide) (by rfl)⟩

/-! ## The end-to-end scenario (3 tokens: unchanged / higher / lower) -/

/-- C5 counterexample.  Running the pipeline on the scenario batch
(A unchanged, B higher, C lower; all oracle calls succeed) publishes the
two events for B and C, but `saveBatch` receives all **3** fulfilled
tokens (the unchanged A included, since the handler pushes every
fulfilled token onto `tokensToSave`) and `updatedCount` ends at **3**
(the handler increments it for every fulfilled token, price change or
not) — not the 2 the claim states. -/
theorem C5_counterexample :
    executeRun oracleC5 (fun _ => .ok ()) (fun _ => .ok ()) 7 [[tokA, tokB, tokC]]
        initialCounters =
      ([Effect.publishCall [evB, evC], Effect.saveCall [tokA, tokB1, tokC1]],
        .ok ⟨3, 3, 0⟩) ∧
    [tokA, tokB1, tokC1].length ≠ 2 ∧ (⟨3, 3, 0⟩ : Counters).updatedCount ≠ 2 :=
  ⟨rfl, by decide, by decide⟩

/-- C5 (amended).  In the end-to-end scenario the run publishes exactly
2 events (for B and C), calls `saveBatch` with the 3 fulfilled tokens —
the 2 updated ones plus the unchanged A — and finishes with
`updatedCount = 3` (fulfilled tokens, not price changes) and
`errorCount = 0`. -/
theorem C5_end_to_end_scenario :
    executeRun oracleC5 (fun _ => .ok ()) (fun _ => .ok ()) 7 [[tokA, tokB, tokC]]
        initialCounters =
      ([Effect.publishCall [evB, evC], Effect.saveCall [tokA, tokB1, tokC1]],
        .ok ⟨3, 3, 0⟩) ∧
    [evB, evC].length = 2 ∧ [tokA, tokB1, tokC1].length = 3 :=
  ⟨rfl, rfl, rfl⟩

/-! ## Run-level error propagation -/

theorem handleBatch_ok_of (oracle : Token → Except String JSNumber)
    (publish : List DomainEvent → Except String Unit)
    (saveBatch : List Token → Except String Unit) (now : Nat) (batch : List Token)
    (c : Counters) (hpub : ∀ evs, publish evs = .ok ())
    (hsave : ∀ ts, saveBatch ts = .ok ()) :
    ∃ c', (handleBatch oracle publish saveBatch now batch c).2 = .ok c' := by
  rcases hc : collectResults (batch.map (processToken oracle now)) with ⟨toks, rest⟩
  rcases rest with ⟨evs, u, e⟩
  by_cases hevs : evs = []
  · by_cases htoks : toks = []
    · rw [handleBatch_empty_empty oracle publish saveBatch now batch c toks evs u e
        hc hevs htoks]
      exact ⟨_, rfl⟩
    · rw [handleBatch_empty_save oracle publish saveBatch now batch c toks evs u e
        hc hevs htoks]
      rw [show saveBatch toks = .ok () from hsave toks]
      exact ⟨_, rfl⟩
  · rw [handleBatch_pub_ok oracle publish saveBatch now batch c toks evs u e
      hc hevs (hpub evs)]
    by_cases htoks : toks.isEmpty
    · simp only [htoks, if_true]
      exact ⟨_, rfl⟩
    · simp only [htoks, Bool.false_eq_true, if_false]
      rw [show saveBatch toks = .ok () from hsave toks]
      exact ⟨_, rfl⟩

theorem handleBatch_error_src (oracle : Token → Except String JSNumber)
    (publish : List DomainEvent → Except String Unit)
    (saveBatch : List Token → Except String Unit) (now : Nat) (batch : List Token)
    (c : Counters) (er : String)
    (h : (handleBatch oracle publish saveBatch now batch c).2 = .error er) :
    (∃ evs, publish evs = .error er) ∨ (∃ ts, saveBatch ts = .error er) := by
  rcases hc : collectResults (batch.map (processToken oracle now)) with ⟨toks, rest⟩
  rcases rest with ⟨evs, u, e⟩
  by_cases hevs : evs = []
  · by_cases htoks : toks = []
    · rw [handleBatch_empty_empty oracle publish saveBatch now batch c toks evs u e
        hc hevs htoks] at h
      simp at h
    · rw [handleBatch_empty_save oracle publish saveBatch now batch c toks evs u e
        hc hevs htoks] at h
      cases hs : saveBatch toks with
      | ok un => rw [hs] at h; simp [saveResult] at h
      | error e' =>
        rw [hs] at h
        simp only [saveResult] at h
        cases h
        exact Or.inr ⟨toks, hs⟩
  · cases hp : publish evs with
    | error e' =>
      rw [handleBatch_pub_error oracle publish saveBatch now batch c toks evs u e e'
        hc hevs hp] at h
      simp only [] at h
      cases h
      exact Or.inl ⟨evs, hp⟩
    | ok un =>
      cases un
      rw [handleBatch_pub_ok oracle publish saveBatch now batch c toks evs u e
        hc hevs hp] at h
      by_cases htoks : toks.isEmpty
      · simp only [htoks, if_true] at h
        simp at h
      · simp only [htoks, Bool.false_eq_true, if_false] at h
        cases hs : saveBatch toks with
        | ok un => rw [hs] at h; simp [saveResult] at h
        | error e' =>
          rw [hs] at h
          simp only [saveResult] at h
          cases h
          exact Or.inr ⟨toks, hs⟩

/-- C3 counterexample.  With a store whose `saveBatch` keeps failing
(retries exhausted), the run rejects with that error after the first
batch: the second batch is never reached (its publish never appears in
the trace) and the caller observes the propagated persist error rather
than any summary — contradicting "persist failures are absorbed at the
run level and the run continues to the next batch". -/
theorem C3_counterexample :
    executeRun oracleC5 (fun _ => .ok ()) (fun _ => .error "db down") 7 [[tokB], [tokC]]
        initialCounters =
      ([Effect.publishCall [evB], Effect.saveCall [tokB1]], .error "db down") ∧
    Effect.publishCall [evC] ∉ [Effect.publishCall [evB], Effect.saveCall [tokB1]] :=
  ⟨rfl, by decide⟩

/-- C3 (amended).  Per-token oracle failures are absorbed locally (the
run still settles with counters, whatever the oracle does, as long as
publish and persist succeed); but a publish or persist rejection is NOT
absorbed: it aborts the run, and every error the caller observes
originates in a publish or persist call (the cursor read, not modelled as
failing here, is the remaining source in the real pipeline).  `execute`
returns no summary value — the counters are only logged. -/
theorem C3_error_propagation :
    (∀ (oracle : Token → Except String JSNumber)
      (publish : List DomainEvent → Except String Unit)
      (saveBatch : List Token → Except String Unit) (now : Nat)
      (batches : List (List Token)) (c : Counters),
      (∀ evs, publish evs = .ok ()) → (∀ ts, saveBatch ts = .ok ()) →
      ∃ c', (executeRun oracle publish saveBatch now batches c).2 = .ok c') ∧
    (∀ (oracle : Token → Except String JSNumber)
      (publish : List DomainEvent → Except String Unit)
      (saveBatch : List Token → Except String Unit) (now : Nat)
      (batches : List (List Token)) (c : Counters) (er : String),
      (executeRun oracle publish saveBatch now batches c).2 = .error er →
      (∃ evs, publish evs = .error er) ∨ (∃ ts, saveBatch ts = .error er)) := by
  constructor
  · intro oracle publish saveBatch now batches
    induction batches with
    | nil => intro c _ _; exact ⟨c, rfl⟩
    | cons b rest ih =>
      intro c hpub hsave
      obtain ⟨c', hc'⟩ := handleBatch_ok_of oracle publish saveBatch now b c hpub hsave
      rcases hh : handleBatch oracle publish saveBatch now b c with ⟨tr, r⟩
      rw [hh] at hc'
      simp only at hc'
      subst hc'
      obtain ⟨c'', hc''⟩ := ih c' hpub hsave
      refine ⟨c'', ?_⟩
      unfold executeRun
      rw [hh]
      simp only []
      rcases hrest : executeRun oracle publish saveBatch now rest c' with ⟨tr', r'⟩
      rw [hrest] at hc''
      simpa using hc''
  · intro oracle publish saveBatch now batches
    induction batches with
    | nil => intro c er h; simp [executeRun] at h
    | cons b rest ih =>
      intro c er h
      unfold executeRun at h
      rcases hh : handleBatch oracle publish saveBatch now b c with ⟨tr, r⟩
      rw [hh] at h
      cases r with
      | error e =>
        simp only at h
        refine handleBatch_error_src oracle publish saveBatch now b c er ?_
        rw [hh]
        exact h
      | ok c' =>
        simp only at h
        rcases hrest : executeRun oracle publish saveBatch now rest c' with ⟨tr', r'⟩
        rw [hrest] at h
        simp only at h
        apply ih c' er
        rw [hrest]
        exact h

/-- C3 witness: a run over one successful batch settles with counters,
and the failing-save run from the counterexample input is traced back to
the persist call. -/
theorem C3_error_propagation_witness :
    (∃ c', (executeRun oracleC5 (fun _ => .ok ()) (fun _ => .ok ()) 7 [[tokB]]
        initialCounters).2 = .ok c') ∧
    ((∃ evs, (fun _ : List DomainEvent => (.ok () : Except String Unit)) evs =
        .error "db down") ∨
      (∃ _ts : List Token, (.error "db down" : Except String Unit) = .error "db down")) :=
  ⟨C3_error_propagation.1 oracleC5 (fun _ => .ok ()) (fun _ => .ok ()) 7 [[tokB]]
      initialCounters (fun _ => rfl) (fun _ => rfl),
    C3_error_propagation.2 oracleC5 (fun _ => .ok ()) (fun _ => .error "db down") 7
      [[tokB], [tokC]] initialCounters "db down" (by rfl)⟩

/-! ## Fan-out shape of the per-batch oracle step -/

theorem collectStep_ok (acc : List Token × List DomainEvent × Nat × Nat) (t : Token) :
    collectStep acc (.ok t) =
      (acc.1 ++ [drainToken t], acc.2.1 ++ t.events, acc.2.2.1 + 1, acc.2.2.2) := rfl

theorem collectStep_error (acc : List Token × List DomainEvent × Nat × Nat) (er : String) :
    collectStep acc (.error er) = (acc.1, acc.2.1, acc.2.2.1, acc.2.2.2 + 1) := rfl

theorem collectResults_foldl (results : List (Except String Token))
    (a : List Token) (b : List DomainEvent) (u e : Nat) :
    results.foldl collectStep (a, b, u, e) =
      (a ++ (results.filterMap okTokenOf).map drainToken,
        b ++ ((results.filterMap okTokenOf).map Token.events).flatten,
        u + results.countP isOkResult,
        e + results.countP (fun r => !isOkResult r)) := by
  induction results generalizing a b u e with
  | nil => simp
  | cons r rs ih =>
    cases r with
    | ok t =>
      rw [List.foldl_cons, collectStep_ok, ih]
      simp [okTokenOf, isOkResult, List.countP_cons]
      omega
    | error er =>
      rw [List.foldl_cons, collectStep_error, ih]
      simp [okTokenOf, isOkResult, List.countP_cons]
      omega

theorem collectResults_spec (results : List (Except String Token)) :
    collectResults results =
      ((results.filterMap okTokenOf).map drainToken,
        ((results.filterMap okTokenOf).map Token.events).flatten,
        results.countP isOkResult,
        results.countP (fun r => !isOkResult r)) := by
  unfold collectResults
  rw [collectResults_foldl]
  simp

/-- C10 counterexample.  The handler fans the oracle calls out with
`Promise.allSettled(batch.map(...))`, which starts every call before any
completes: the number of oracle requests in flight equals the batch size
— 100 for a default-sized batch, not bounded by any worker limit of 10,
and not independent of the batch size (a 5-token batch puts 5 in
flight). -/
theorem C10_counterexample :
    oracleCallsInFlight (List.replicate 100 tokA) = 100 ∧
    ¬ oracleCallsInFlight (List.replicate 100 tokA) ≤ 10 ∧
    oracleCallsInFlight (List.replicate 5 tokA) = 5 := by
  refine ⟨?_, ?_, ?_⟩ <;> simp [oracleCallsInFlight]

/-- C10 (amended).  Within every batch the oracle fetches are all
started at once — the in-flight count equals the batch size, with no
worker-limit parameter anywhere — and each token's call is isolated: the
settled result at position `i` depends only on token `i`, and the
collection step keeps every fulfilled token (drained) while counting
rejected ones, so one call's failure does not cancel or discard its
siblings. -/
theorem C10_fanout_isolation :
    (∀ batch : List Token, oracleCallsInFlight batch = batch.length) ∧
    (∀ (oracle : Token → Except String JSNumber) (now : Nat) (batch : List Token) (i : Nat),
      (batch.map (processToken oracle now))[i]? =
        (batch[i]?).map (processToken oracle now)) ∧
    (∀ (oracle : Token → Except String JSNumber) (now : Nat) (batch : List Token),
      (collectResults (batch.map (processToken oracle now))).1 =
        ((batch.map (processToken oracle now)).filterMap okTokenOf).map drainToken ∧
      (collectResults (batch.map (processToken oracle now))).2.2.1 =
        (batch.map (processToken oracle now)).countP isOkResult ∧
      (collectResults (batch.map (processToken oracle now))).2.2.2 =
        (batch.map (processToken oracle now)).countP (fun r => !isOkResult r)) := by
  refine ⟨fun _ => rfl, ?_, ?_⟩
  · intro oracle now batch i
    exact List.getElem?_map _ _ _
  · intro oracle now batch
    rw [collectResults_spec]
    exact ⟨rfl, rfl, rfl⟩

/-! ## Cursor-stream correctness -/

theorem dropWhile_ne_cons {α : Type} [DecidableEq α] (pre rest : List α) (c : α)
    (hc : c ∉ pre) : (pre ++ c :: rest).dropWhile (· ≠ c) = c :: rest := by
  induction pre with
  | nil => simp [List.dropWhile_cons]
  | cons a pre ih =>
    have ha : a ≠ c := by
      intro h
      exact hc (h ▸ List.mem_cons_self a pre)
    have hc' : c ∉ pre := fun h => hc (List.mem_cons_of_mem a h)
    rw [List.cons_append, List.dropWhile_cons, if_pos (by simp [ha])]
    exact ih hc'

theorem fetchBatch_some_eq {α : Type} [DecidableEq α] (pre rest : List α) (c : α)
    (bs : Nat) (hc : c ∉ pre) :
    fetchBatch (pre ++ c :: rest) (some c) bs = rest.take bs := by
  show List.take bs (List.drop 1 (List.dropWhile (fun x => decide (x ≠ c)) (pre ++ c :: rest))) =
    List.take bs rest
  rw [dropWhile_ne_cons pre rest c hc]
  simp

theorem processAllGo_spec {α : Type} [DecidableEq α] (bs : Nat) (hbs : 0 < bs) :
    ∀ (fuel : Nat) (store pre rest : List α) (cursor : Option α),
      store = pre ++ rest → store.Nodup →
      (cursor = none ∧ pre = [] ∨ ∃ c pre2, cursor = some c ∧ pre = pre2 ++ [c]) →
      rest.length < fuel →
      (processAllGo store bs fuel cursor).flatten = rest ∧
      (∀ b ∈ processAllGo store bs fuel cursor, b ≠ [] ∧ b.length ≤ bs) ∧
      (∀ i, i + 1 < (processAllGo store bs fuel cursor).length →
        ∃ b, (processAllGo store bs fuel cursor)[i]? = some b ∧ b.length = bs) := by
  intro fuel
  induction fuel with
  | zero =>
    intro store pre rest cursor hsplit hnd hcur hfuel
    exact absurd hfuel (Nat.not_lt_zero _)
  | succ fuel ih =>
    intro store pre rest cursor hsplit hnd hcur hfuel
    have hrows : fetchBatch store cursor bs = rest.take bs := by
      rcases hcur with ⟨hnone, hpre⟩ | ⟨c, pre2, hsome, hpre⟩
      · subst hnone hpre
        simp only [List.nil_append] at hsplit
        subst hsplit
        rfl
      · subst hsome hpre
        rw [List.append_assoc, List.singleton_append] at hsplit
        subst hsplit
        have hcpre : c ∉ pre2 := by
          have h1 := List.nodup_middle.mp hnd
          have h2 := (List.nodup_cons.mp h1).1
          intro hmem
          exact h2 (List.mem_append.mpr (Or.inl hmem))
        exact fetchBatch_some_eq pre2 rest c bs hcpre
    have hunfold : processAllGo store bs (fuel + 1) cursor =
        (match (fetchBatch store cursor bs).getLast? with
         | none => []
         | some last =>
           if (fetchBatch store cursor bs).length < bs then [fetchBatch store cursor bs]
           else fetchBatch store cursor bs :: processAllGo store bs fuel (some last)) := rfl
    rcases List.eq_nil_or_concat (rest.take bs) with htake | ⟨init, lst, htake⟩
    · have hgo : processAllGo store bs (fuel + 1) cursor = [] := by
        rw [hunfold, hrows, htake]
        rfl
      have hrest : rest = [] := by
        rcases rest with _ | ⟨x, xs⟩
        · rfl
        · exfalso
          rcases bs with _ | bs
          · omega
          · simp [List.take_cons] at htake
      subst hrest
      simp [hgo]
    · rw [List.concat_eq_append] at htake
      have hlast : (rest.take bs).getLast? = some lst := by
        rw [htake]
        simp
      have hne : rest ≠ [] := by
        intro h
        rw [h] at htake
        simp at htake
      have hTlen : (rest.take bs).length = min bs rest.length := List.length_take _ _
      by_cases hshort : (rest.take bs).length < bs
      · have hrlen : rest.length < bs := by omega
        have htr : rest.take bs = rest := List.take_of_length_le (by omega)
        have hgo : processAllGo store bs (fuel + 1) cursor = [rest.take bs] := by
          rw [hunfold, hrows, hlast]
          simp only [hshort, if_true]
        rw [hgo]
        refine ⟨by simp [htr], ?_, ?_⟩
        · intro b hb
          rcases List.mem_singleton.mp hb with rfl
          exact ⟨by rw [htr]; exact hne, by omega⟩
        · intro i hi
          simp at hi
      · have hlen : (rest.take bs).length = bs := by omega
        have hrge : bs ≤ rest.length := by
          have : 0 < rest.length := List.length_pos.mpr hne
          omega
        have hgo : processAllGo store bs (fuel + 1) cursor =
            (rest.take bs) :: processAllGo store bs fuel (some lst) := by
          rw [hunfold, hrows, hlast]
          simp only [hshort, if_false]
        have hsplit2 : store = ((pre ++ (rest.take bs).dropLast) ++ [lst]) ++ rest.drop bs := by
          rw [hsplit]
          have hsplit3 : rest = rest.take bs ++ rest.drop bs :=
            (List.take_append_drop bs rest).symm
          calc pre ++ rest = pre ++ (rest.take bs ++ rest.drop bs) := by rw [← hsplit3]
            _ = pre ++ ((init ++ [lst]) ++ rest.drop bs) := by rw [htake]
            _ = ((pre ++ init) ++ [lst]) ++ rest.drop bs := by simp
            _ = ((pre ++ (rest.take bs).dropLast) ++ [lst]) ++ rest.drop bs := by
                rw [htake, List.dropLast_concat]
        have hfuel2 : (rest.drop bs).length < fuel := by
          rw [List.length_drop]
          omega
        obtain ⟨ihj, ihm, ihs⟩ := ih store ((pre ++ (rest.take bs).dropLast) ++ [lst])
          (rest.drop bs) (some lst) hsplit2 hnd
          (Or.inr ⟨lst, pre ++ (rest.take bs).dropLast, rfl, rfl⟩) hfuel2
        rw [hgo]
        refine ⟨?_, ?_, ?_⟩
        · simp only [List.flatten_cons, ihj]
          exact List.take_append_drop bs rest
        · intro b hb
          rcases List.mem_cons.mp hb with rfl | hb2
          · refine ⟨?_, by omega⟩
            intro h
            rw [h] at hlen
            simp at hlen
            omega
          · exact ihm b hb2
        · intro i hi
          cases i with
          | zero => exact ⟨rest.take bs, by simp, hlen⟩
          | succ j =>
            simp only [List.length_cons] at hi
            have hjs := ihs j (by omega)
            simpa using hjs

set_option maxRecDepth 10000 in
/-- C4.  For a store of exactly 250 tokens read with `batchSize = 100`,
the cursor loop of `processAll` yields exactly 3 batches of sizes
100, 100, 50, whose concatenation is the whole store in ascending-id
order — every token exactly once, no duplicates.  In general (any store
with distinct ids, any positive batch size) the concatenation of the
yielded batches is the whole store, every batch is nonempty and at most
`batchSize` long, and every batch but the last has exactly `batchSize`
rows — i.e. the loop stops exactly at the first empty or short fetch. -/
theorem C4_streamBatches_cursor :
    ((streamBatches (List.range 250) 100).map List.length = [100, 100, 50] ∧
      (streamBatches (List.range 250) 100).flatten = List.range 250) ∧
    (∀ (α : Type) [DecidableEq α] (store : List α) (bs : Nat), 0 < bs → store.Nodup →
      (streamBatches store bs).flatten = store ∧
      (∀ b ∈ streamBatches store bs, b ≠ [] ∧ b.length ≤ bs) ∧
      (∀ i, i + 1 < (streamBatches store bs).length →
        ∃ b, (streamBatches store bs)[i]? = some b ∧ b.length = bs)) := by
  constructor
  · constructor
    · decide
    · decide
  · intro α inst store bs hbs hnd
    exact processAllGo_spec bs hbs (store.length + 1) store [] store none rfl hnd
      (Or.inl ⟨rfl, rfl⟩) (by omega)

/-- C4 witness: the general part of the theorem applied to a concrete
5-element store with batch size 2 (batches 2, 2, 1). -/
theorem C4_streamBatches_cursor_witness :
    (streamBatches [10, 20, 30, 40, 50] 2).flatten = [10, 20, 30, 40, 50] ∧
    streamBatches [10, 20, 30, 40, 50] 2 = [[10, 20], [30, 40], [50]] :=
  ⟨(C4_streamBatches_cursor.2 Nat [10, 20, 30, 40, 50] 2 (by decide) (by decide)).1,
    by decide⟩

end TokenPriceService
